import Mathlib

/-!
Shallow embedding of the scraping/parsing subsystem of the
oklahoma-constitution-search repository, together with proofs of the
spec's testable properties.

Python strings are modelled as `List Char` (wrapped in `String` at the
interfaces); Python `set` is modelled as `Finset String`; regular
expressions are hand-translated into explicit matching functions whose
greedy/lazy behaviour is noted where it matters; the filesystem and the
network are modelled as explicit state/oracle parameters.
-/

set_option maxRecDepth 4000

/-! ## Character classes and low-level string helpers -/

/-- Python `\s` (the whitespace characters relevant to these inputs). -/
def isWsChar (c : Char) : Bool :=
  c = ' ' || c = '\t' || c = '\n' || c = '\r' || c = '\x0b' || c = '\x0c'

/-- Python `\d`. -/
def isDigitC (c : Char) : Bool := '0' ≤ c && c ≤ '9'

/-- Character class `[a-z]`. -/
def isLowerC (c : Char) : Bool := 'a' ≤ c && c ≤ 'z'

/-- Character class `[A-Za-z]`. -/
def isAlphaC (c : Char) : Bool := ('a' ≤ c && c ≤ 'z') || ('A' ≤ c && c ≤ 'Z')

/-- Character class `[IVXLCDM]` (Roman numerals). -/
def isRomanC (c : Char) : Bool :=
  c = 'I' || c = 'V' || c = 'X' || c = 'L' || c = 'C' || c = 'D' || c = 'M'

/-- Character class `[\d\-\.]` used by the section-number regexes. -/
def isSectC (c : Char) : Bool := isDigitC c || c = '-' || c = '.'

/-- Python `\w` (ASCII portion, which is all these inputs use). -/
def isWordC (c : Char) : Bool := isAlphaC c || isDigitC c || c = '_'

/-- Match a literal character sequence at the head, returning the rest. -/
def dropLit : List Char → List Char → Option (List Char)
  | [], l => some l
  | _ :: _, [] => none
  | p :: ps, c :: cs => if c = p then dropLit ps cs else none

/-- Case-insensitive `dropLit` (for regexes compiled with IGNORECASE). -/
def dropLitCI : List Char → List Char → Option (List Char)
  | [], l => some l
  | _ :: _, [] => none
  | p :: ps, c :: cs => if c.toLower = p.toLower then dropLitCI ps cs else none

/-- The `\s+`: one or more whitespace characters, greedily. -/
def wsPlus (l : List Char) : Option (List Char) :=
  let s := l.span isWsChar
  if s.1.isEmpty then none else some s.2

/-- The `\s*`: zero or more whitespace characters, greedily. -/
def wsStar (l : List Char) : List Char := l.dropWhile isWsChar

/-- A character class applied one-or-more times, greedily; returns the
matched run and the rest. -/
def clsPlus (p : Char → Bool) (l : List Char) : Option (List Char × List Char) :=
  let s := l.span p
  if s.1.isEmpty then none else some s

/-- Python `needle in haystack` (substring containment). -/
def containsSub (needle : List Char) : List Char → Bool
  | [] => needle.isEmpty
  | c :: t => (dropLit needle (c :: t)).isSome || containsSub needle t

/-- Leftmost-match search: try the matcher at every position, left to
right, as `re.search` does. -/
def reSearch {α : Type} (m : List Char → Option α) : List Char → Option α
  | [] => m []
  | c :: t =>
    match m (c :: t) with
    | some r => some r
    | none => reSearch m t

/-- Python `str.split()` — split on whitespace runs, dropping empties. -/
def wsSplitGo : List Char → List Char → List (List Char)
  | [], cur => if cur.isEmpty then [] else [cur.reverse]
  | c :: t, cur =>
    if isWsChar c then
      if cur.isEmpty then wsSplitGo t [] else cur.reverse :: wsSplitGo t []
    else wsSplitGo t (c :: cur)

/-- Python `str.split()`. -/
def wsSplit (l : List Char) : List (List Char) := wsSplitGo l []

/-- Python `' '.join(words)`. -/
def joinWords : List (List Char) → List Char
  | [] => []
  | [w] => w
  | w :: ws => w ++ ' ' :: joinWords ws

/-- Python `str.strip()`. -/
def trimWs (l : List Char) : List Char :=
  ((l.dropWhile isWsChar).reverse.dropWhile isWsChar).reverse

/-- Python `str.replace(pat, repl)` (all occurrences, left to right);
the fuel argument bounds the number of steps by the input length. -/
def replaceAllGo (pat repl : List Char) : Nat → List Char → List Char
  | 0, l => l
  | _ + 1, [] => []
  | fuel + 1, c :: t =>
    match dropLit pat (c :: t) with
    | some r => repl ++ replaceAllGo pat repl fuel r
    | none => c :: replaceAllGo pat repl fuel t

/-- Python `str.replace(pat, repl)` for a non-empty pattern. -/
def replaceAll (pat repl l : List Char) : List Char :=
  replaceAllGo pat repl l.length l

/-! ## Progress tracker (C6, C10)

`SlowStatuteDownloader.load_progress`/`save_progress` in
`src/slow_downloader.py`, and `StatuteHTMLProcessor.load_processed` /
`save_processed` in `src/html_processor.py`.  The in-memory progress set
(a Python `set` of citeId strings) is a `Finset String`; the JSON file is
modelled by the data it holds. -/

/-- The states the local progress file can be in, as seen by the loader:
missing, unreadable (`open` raises), syntactically invalid JSON
(`json.load` raises), or valid JSON carrying the persisted id list. -/
inductive ProgressFile where
  | absent : ProgressFile
  | unreadable : ProgressFile
  | invalidJson : ProgressFile
  | valid : List String → ProgressFile
deriving DecidableEq

/-- The `SlowStatuteDownloader.load_progress`: if the file does not exist,
return the empty set; otherwise parse it inside try/except, returning the
empty set on any exception, else `set(data.get('downloaded', []))`. -/
def load_progress : ProgressFile → Finset String
  | .absent => ∅
  | .unreadable => ∅
  | .invalidJson => ∅
  | .valid downloaded => downloaded.toFinset

/-- The `StatuteHTMLProcessor.load_processed` has the same structure with the
JSON key `processed` instead of `downloaded`. -/
def load_processed : ProgressFile → Finset String
  | .absent => ∅
  | .unreadable => ∅
  | .invalidJson => ∅
  | .valid processed => processed.toFinset

/-- The `save_progress` writes `{'downloaded': list(self.downloaded), ...}`.
Python's `list(set)` enumerates the set in an unspecified order, so the
serialisation is modelled as any enumeration `enum` of the set. -/
def save_progress (enum : List String) : ProgressFile := .valid enum

/-- The `download_statute` on a successful download: `self.downloaded.add(cite_id)`. -/
def record_success (downloaded : Finset String) (citeId : String) : Finset String :=
  insert citeId downloaded

/-- The in-memory set after a sequence of success recordings starting
from an empty progress set. -/
def run_records (citeIds : List String) : Finset String :=
  citeIds.foldl record_success ∅

/-! ## Storage writer (C9)

`StatutesDatabase.insert_statute` in `src/supabase_client.py`.  The
relational store is an external service: each table insert is a separate
HTTP call, so mutations performed before an exception stay committed.
The store is a record of per-table row lists; whether a given insert call
succeeds is determined by an oracle parameter. -/

/-- The insert steps `insert_statute` performs, in program order. -/
inductive InsertStep where
  | mainStatute : InsertStep
  | paragraphs : InsertStep
  | definitions : InsertStep
  | legislativeHistory : InsertStep
  | citations : InsertStep
  | supersededDocuments : InsertStep
deriving DecidableEq

/-- Input to `insert_statute`: the cite id plus the optional child
collections found in `statute_data['content']` / `['citations']`
(`None` models an absent key, mirroring the `if 'key' in ...` guards). -/
structure StatuteData where
  citeId : String
  paragraphs : Option (List String)
  definitions : Option (List String)
  historicalData : Option (List String)
  citationRefs : Option (List String)
  supersededDocs : Option (List String)
deriving DecidableEq

/-- The relational store: one row list per table.  Rows are tagged with
the cite id of the statute they belong to. -/
structure DbState where
  statutes : List String
  statuteParagraphs : List (String × String)
  statuteDefinitions : List (String × String)
  legislativeHistory : List (String × String)
  statuteCitations : List (String × String)
  supersededDocuments : List (String × String)
deriving DecidableEq

/-- Result dict returned by `insert_statute`. -/
structure InsertResult where
  success : Bool
  citeId : String
deriving DecidableEq

/-- One child-table bulk insert: `self.client.table(...).insert(rows).execute()`.
On success the rows are appended; on failure (oracle says the call
raises) the table is unchanged and the exception propagates. -/
def childInsert (ok : Bool) (rows : List (String × String))
    (table : List (String × String)) : Option (List (String × String)) :=
  if ok then some (table ++ rows) else none

/-- The `StatutesDatabase.insert_statute`: insert the main record, then the
child tables in program order, each guarded by presence of its key; the
whole body is wrapped in try/except, so the first failing call aborts the
remaining inserts and yields a `success: False` result, with every
mutation already performed left in place. -/
def insert_statute (oracle : InsertStep → Bool) (d : StatuteData)
    (st : DbState) : InsertResult × DbState :=
  if !oracle .mainStatute then
    -- the main insert raised or returned no data: nothing was committed
    (⟨false, d.citeId⟩, st)
  else
    let st1 : DbState := { st with statutes := st.statutes ++ [d.citeId] }
    let rows : Option (List String) → List (String × String) :=
      fun l => (l.getD []).map (fun r => (d.citeId, r))
    -- paragraphs
    match d.paragraphs with
    | some ps =>
      match childInsert (oracle .paragraphs) (rows (some ps)) st1.statuteParagraphs with
      | none => (⟨false, d.citeId⟩, st1)
      | some t1 =>
        let st2 := { st1 with statuteParagraphs := t1 }
        insertAfterParagraphs oracle d st2
    | none => insertAfterParagraphs oracle d st1
where
  /-- the definitions / history / citations / superseded steps. -/
  insertAfterParagraphs (oracle : InsertStep → Bool) (d : StatuteData)
      (st : DbState) : InsertResult × DbState :=
    let rows : Option (List String) → List (String × String) :=
      fun l => (l.getD []).map (fun r => (d.citeId, r))
    match d.definitions with
    | some ds =>
      match childInsert (oracle .definitions) (rows (some ds)) st.statuteDefinitions with
      | none => (⟨false, d.citeId⟩, st)
      | some t =>
        insertAfterDefinitions oracle d { st with statuteDefinitions := t }
    | none => insertAfterDefinitions oracle d st
  insertAfterDefinitions (oracle : InsertStep → Bool) (d : StatuteData)
      (st : DbState) : InsertResult × DbState :=
    let rows : Option (List String) → List (String × String) :=
      fun l => (l.getD []).map (fun r => (d.citeId, r))
    match d.historicalData with
    | some hs =>
      match childInsert (oracle .legislativeHistory) (rows (some hs)) st.legislativeHistory with
      | none => (⟨false, d.citeId⟩, st)
      | some t =>
        insertAfterHistory oracle d { st with legislativeHistory := t }
    | none => insertAfterHistory oracle d st
  insertAfterHistory (oracle : InsertStep → Bool) (d : StatuteData)
      (st : DbState) : InsertResult × DbState :=
    let rows : Option (List String) → List (String × String) :=
      fun l => (l.getD []).map (fun r => (d.citeId, r))
    match d.citationRefs with
    | some cs =>
      match childInsert (oracle .citations) (rows (some cs)) st.statuteCitations with
      | none => (⟨false, d.citeId⟩, st)
      | some t =>
        insertAfterCitations oracle d { st with statuteCitations := t }
    | none => insertAfterCitations oracle d st
  insertAfterCitations (oracle : InsertStep → Bool) (d : StatuteData)
      (st : DbState) : InsertResult × DbState :=
    let rows : Option (List String) → List (String × String) :=
      fun l => (l.getD []).map (fun r => (d.citeId, r))
    match d.supersededDocs with
    | some ss =>
      match childInsert (oracle .supersededDocuments) (rows (some ss)) st.supersededDocuments with
      | none => (⟨false, d.citeId⟩, st)
      | some t =>
        (⟨true, d.citeId⟩, { st with supersededDocuments := t })
    | none => (⟨true, d.citeId⟩, st)

/-! ## Rate-limited fetcher with retry (C5)

`CloudflareBypassScraper.get_constitution_with_retry` and `human_delay`
in `src/oklahoma_legal/cloudflare_bypass_scraper.py`.  The transport is
an oracle mapping the attempt index to an outcome; `random.uniform(5, 10)`
draws are supplied as a stream of rationals. -/

/-- Outcome of one `session.get` call against the site. -/
inductive FetchOutcome where
  | timeout : FetchOutcome
  | ok : Nat → String → FetchOutcome
  | connError : FetchOutcome
deriving DecidableEq

/-- The `human_delay(min_seconds, max_seconds)` sleeps for
`random.uniform(min_seconds, max_seconds)` seconds; the drawn value is
returned so the trace can record it. -/
def human_delay (draw : ℚ) : ℚ := draw

/-- Trace of one `get_constitution_with_retry` run: the final return
value (the parsed page on success, `None` on give-up), the number of
`session.get` attempts made, and the delays slept between attempts. -/
structure RetryTrace where
  result : Option String
  attempts : Nat
  delays : List ℚ
deriving DecidableEq

/-- The challenge-page marker test on a 200 response:
`"cloudflare" in text or "checking your browser" in text or "just a moment" in text`. -/
def isChallengePage (body : String) : Bool :=
  containsSub "cloudflare".toList body.toList
    || containsSub "checking your browser".toList body.toList
    || containsSub "just a moment".toList body.toList

/-- The retry loop of `get_constitution_with_retry`, iterating over the
remaining attempt count with `attempt` the 0-based attempt index, and
`rands n` the uniform(5,10) draw used by the delay before the (n+2)-th
attempt.  Mirrors the `for attempt in range(max_retries)` body: a delay
is slept only when `attempt > 0`; a 200 without challenge markers
returns the parsed page; every other outcome (timeout, 403, 503, other
status, challenge page, connection error) falls through to the next
iteration; after the last iteration the function returns None. -/
def retryLoop (transport : Nat → FetchOutcome) (rands : Nat → ℚ)
    (parse : String → String) : Nat → Nat → RetryTrace
  | 0, _ => ⟨none, 0, []⟩
  | remaining + 1, attempt =>
    let ds : List ℚ := if attempt > 0 then [human_delay (rands (attempt - 1))] else []
    match transport attempt with
    | .ok 200 body =>
      if isChallengePage body then
        let rest := retryLoop transport rands parse remaining (attempt + 1)
        ⟨rest.result, rest.attempts + 1, ds ++ rest.delays⟩
      else
        ⟨some (parse body), 1, ds⟩
    | .ok _ _ =>
      let rest := retryLoop transport rands parse remaining (attempt + 1)
      ⟨rest.result, rest.attempts + 1, ds ++ rest.delays⟩
    | .timeout =>
      let rest := retryLoop transport rands parse remaining (attempt + 1)
      ⟨rest.result, rest.attempts + 1, ds ++ rest.delays⟩
    | .connError =>
      let rest := retryLoop transport rands parse remaining (attempt + 1)
      ⟨rest.result, rest.attempts + 1, ds ++ rest.delays⟩

/-- The `get_constitution_with_retry(max_retries=3)`. -/
def get_constitution_with_retry (transport : Nat → FetchOutcome)
    (rands : Nat → ℚ) (parse : String → String) (maxRetries : Nat := 3) :
    RetryTrace :=
  retryLoop transport rands parse maxRetries 0

/-! ## Text chunker (C7)

`ConstitutionVectorBuilder.chunk_text` in
`src/oklahoma_legal/vector_database_builder.py`
(`MAX_TEXT_LENGTH = 8000` in `config_production.py`). -/

/-- The word-packing loop of `chunk_text`: `cur` is `current_chunk`,
`curLen` is `current_length` (the running sum of `len(word) + 1`); when
adding a word would push `current_length` past `max_length` the current
chunk is flushed (if non-empty) and the word starts a fresh chunk. -/
def packGo (maxLength : Nat) : List (List Char) → List (List Char) → Nat → List (List Char)
  | [], cur, _ => if cur.isEmpty then [] else [joinWords cur]
  | w :: ws, cur, curLen =>
    let wl := w.length + 1
    if maxLength < curLen + wl then
      if cur.isEmpty then packGo maxLength ws [w] wl
      else joinWords cur :: packGo maxLength ws [w] wl
    else packGo maxLength ws (cur ++ [w]) (curLen + wl)

/-- The `chunk_text(text, max_length)`: short texts are returned whole;
longer texts are split on whitespace and greedily packed. -/
def chunk_text (text : List Char) (maxLength : Nat) : List (List Char) :=
  if text.length ≤ maxLength then [text]
  else packGo maxLength (wsSplit text) [] 0

/-- Whitespace normalisation of a text: its words joined by single
spaces (the equivalence `chunk_text` preserves). -/
def normWs (l : List Char) : List Char := joinWords (wsSplit l)

/-- Whether every child-table insert `insert_statute` would execute for
`d` succeeds under `oracle` — the executed child calls are exactly the
present collections, and the first failing one aborts the rest. -/
def children_ok (oracle : InsertStep → Bool) (d : StatuteData) : Bool :=
  (d.paragraphs.isNone || oracle .paragraphs)
    && (d.definitions.isNone || oracle .definitions)
    && (d.historicalData.isNone || oracle .legislativeHistory)
    && (d.citationRefs.isNone || oracle .citations)
    && (d.supersededDocs.isNone || oracle .supersededDocuments)

/-! ## Regex matchers for the citation extractors

Each Python regex is hand-translated into an explicit matcher on
`List Char`.  In every pattern below a greedy `+`/`*` run over a
character class is followed either by nothing or by a literal outside
that class, so maximal munch coincides with the backtracking semantics
of `re`. -/

/-- The span of the input consumed by a matcher that returned `rest`
(matchers only ever drop characters from the front). -/
def spanOf (l rest : List Char) : List Char := l.take (l.length - rest.length)

/-- Convert a run of decimal digits to the `int` it denotes. -/
def digitsToNat (l : List Char) : Nat :=
  l.foldl (fun n c => n * 10 + (c.toNat - '0'.toNat)) 0

/-- The `Title\s+(\d+)` — capture group 1. -/
def matchTitleNum (l : List Char) : Option String := do
  let r1 ← dropLit "Title".toList l
  let r2 ← wsPlus r1
  let (ds, _) ← clsPlus isDigitC r2
  pure (String.mk ds)

/-- The `(\d+)\s+O\.S\.` — capture group 1. -/
def matchNumOS (l : List Char) : Option String := do
  let (ds, r1) ← clsPlus isDigitC l
  let r2 ← wsPlus r1
  let _ ← dropLit "O.S.".toList r2
  pure (String.mk ds)

/-- The `§\s*([\d\-\.]+[a-z]*)` — capture group 1 (statute form). -/
def matchSectSymbStat (l : List Char) : Option String := do
  let r1 ← dropLit "§".toList l
  let r2 := wsStar r1
  let (ds, r3) ← clsPlus isSectC r2
  let s := r3.span isLowerC
  pure (String.mk (ds ++ s.1))

/-- The `Section\s+([\d\-\.]+[a-z]*)` — capture group 1 (statute form). -/
def matchSectWordStat (l : List Char) : Option String := do
  let r1 ← dropLit "Section".toList l
  let r2 ← wsPlus r1
  let (ds, r3) ← clsPlus isSectC r2
  let s := r3.span isLowerC
  pure (String.mk (ds ++ s.1))

/-- The `Article\s+([IVXLCDM]+)` — capture group 1. -/
def matchArticleRoman (l : List Char) : Option String := do
  let r1 ← dropLit "Article".toList l
  let r2 ← wsPlus r1
  let (rs, _) ← clsPlus isRomanC r2
  pure (String.mk rs)

/-- The `Art\.\s*([IVXLCDM]+)` — capture group 1. -/
def matchArtDotRoman (l : List Char) : Option String := do
  let r1 ← dropLit "Art.".toList l
  let r2 := wsStar r1
  let (rs, _) ← clsPlus isRomanC r2
  pure (String.mk rs)

/-- The `§\s*(\d+[a-z]*)` — capture group 1 (constitution form). -/
def matchSectSymbConst (l : List Char) : Option String := do
  let r1 ← dropLit "§".toList l
  let r2 := wsStar r1
  let (ds, r3) ← clsPlus isDigitC r2
  let s := r3.span isLowerC
  pure (String.mk (ds ++ s.1))

/-- The `Section\s+(\d+[a-z]*)` — capture group 1 (constitution form). -/
def matchSectWordConst (l : List Char) : Option String := do
  let r1 ← dropLit "Section".toList l
  let r2 ← wsPlus r1
  let (ds, r3) ← clsPlus isDigitC r2
  let s := r3.span isLowerC
  pure (String.mk (ds ++ s.1))

/-! ## Citation metadata extraction (C4)

`OklahomaDocumentParser._extract_statute_metadata` and
`_extract_constitution_metadata` in
`src/oklahoma_legal/oklahoma_document_parser.py`. -/

/-- The metadata dict built by `_extract_statute_metadata`. -/
structure StatuteMeta where
  title_number : Option String
  title_name : Option String
  chapter_number : Option String
  chapter_name : Option String
  section_number : Option String
  section_name : Option String
deriving DecidableEq

/-- The `_extract_statute_metadata(soup, main_text, page_title)`: both regex
cascades run over `main_text[:1000]`. -/
def extract_statute_metadata (mainText : List Char) (pageTitle : String) :
    StatuteMeta :=
  let window := mainText.take 1000
  { title_number :=
      (reSearch matchTitleNum window).orElse fun _ => reSearch matchNumOS window
    title_name := none
    chapter_number := none
    chapter_name := none
    section_number :=
      (reSearch matchSectSymbStat window).orElse fun _ =>
        reSearch matchSectWordStat window
    section_name := if pageTitle ≠ "" then some pageTitle else none }

/-- The metadata dict built by `_extract_constitution_metadata`. -/
structure ConstitutionMeta where
  article_number : Option String
  article_name : Option String
  section_number : Option String
  section_name : Option String
deriving DecidableEq

/-- The `_extract_constitution_metadata(soup, main_text, page_title)`. -/
def extract_constitution_metadata (mainText : List Char) (pageTitle : String) :
    ConstitutionMeta :=
  let window := mainText.take 1000
  let articleNumber :=
    (reSearch matchArticleRoman window).orElse fun _ =>
      reSearch matchArtDotRoman window
  let sectionNumber :=
    (reSearch matchSectSymbConst window).orElse fun _ =>
      reSearch matchSectWordConst window
  { article_number := articleNumber
    article_name :=
      if pageTitle ≠ "" ∧ sectionNumber.isNone then some pageTitle else none
    section_number := sectionNumber
    section_name :=
      if pageTitle ≠ "" ∧ sectionNumber.isSome then some pageTitle else none }

/-! ## Discovery crawler id extraction (C8)

`CaseLawDiscoverer.extract_cite_ids` in
`src/oklahoma_legal/scrapers/case_law_discoverer.py`, and
`StatuteURLCollector.extract_statute_links` in
`src/oklahoma_legal/url_collector.py`.  An index page is abstracted as
the list of `(href, link text)` pairs of its `<a href=...>` tags. -/

/-- The `DeliverDocument\.asp\?CiteID=(\d+)` with IGNORECASE — capture 1. -/
def matchDeliverDocCiteId (l : List Char) : Option String := do
  let r1 ← dropLitCI "DeliverDocument.asp?CiteID=".toList l
  let (ds, _) ← clsPlus isDigitC r1
  pure (String.mk ds)

/-- The `CiteID=(\d+)` (case-sensitive) — capture 1. -/
def matchCiteIdParam (l : List Char) : Option String := do
  let r1 ← dropLit "CiteID=".toList l
  let (ds, _) ← clsPlus isDigitC r1
  pure (String.mk ds)

/-- The `set.add`: adds an element unless already present (a Python `set` of
strings modelled as its duplicate-free element list). -/
def setAdd (acc : List String) (x : String) : List String :=
  if x ∈ acc then acc else x :: acc

/-- The `CaseLawDiscoverer.extract_cite_ids`: one `cite_ids.add` per link
whose href matches the DeliverDocument pattern, then `list(cite_ids)` —
each member of the set enumerated exactly once (in an order the `set`
type does not specify). -/
def extract_cite_ids (hrefs : List String) : List String :=
  hrefs.foldl
    (fun acc href =>
      match reSearch matchDeliverDocCiteId href.toList with
      | some citeId => setAdd acc citeId
      | none => acc)
    []

/-- One entry of the list built by `extract_statute_links`. -/
structure StatuteLink where
  cite_id : String
  url : String
  title_number : Nat
  section_name : String
deriving DecidableEq

/-- The `StatuteURLCollector.extract_statute_links`: appends one entry per
link whose href contains both `DeliverDocument.asp` and `CiteID=` and
whose `CiteID=(\d+)` search succeeds — with no de-duplication. -/
def extract_statute_links (links : List (String × String))
    (titleNumber : Nat) : List StatuteLink :=
  links.foldr
    (fun link acc =>
      if containsSub "DeliverDocument.asp".toList link.1.toList
          && containsSub "CiteID=".toList link.1.toList then
        match reSearch matchCiteIdParam link.1.toList with
        | some citeId =>
          { cite_id := citeId, url := link.1, title_number := titleNumber
            section_name := link.2 } :: acc
        | none => acc
      else acc)
    []

/-! ## Document parser (C1, C4)

`OklahomaDocumentParser.parse_html_file` in
`src/oklahoma_legal/oklahoma_document_parser.py`.  An HTML file is
abstracted as the outcomes of the BeautifulSoup queries the parser
performs on it: the raw content string, the stripped `<title>` text, the
stripped texts of the `<pre>` tags, the cleaned text of the
`#oscn-content` div, the whole-page text, and the filename stem. -/

/-- The BeautifulSoup view of one HTML file. -/
structure HtmlInput where
  content : List Char
  titleText : Option (List Char)
  preTexts : List (List Char)
  oscnContentText : Option (List Char)
  allText : List Char
  stem : String
deriving DecidableEq

/-- The `_extract_document_type`: `'dbcode=STOKCN' in html or 'dbCode=STOKCN' in html`. -/
def extract_document_type (content : List Char) : String :=
  if containsSub "dbcode=STOKCN".toList content
      || containsSub "dbCode=STOKCN".toList content then "constitution"
  else "statute"

/-- The `_extract_page_title`: the stripped `<title>` text with the
`^OSCN Found Document:\s*` boilerplate removed; `''` if no title tag. -/
def extract_page_title (titleText : Option (List Char)) : String :=
  match titleText with
  | none => ""
  | some t =>
    match dropLit "OSCN Found Document:".toList t with
    | some rest => String.mk (wsStar rest)
    | none => String.mk t

/-- The `_extract_main_text`: `<pre>` texts longer than 100 characters joined
by blank lines, else the `#oscn-content` div text, else the whole-page
text. -/
def extract_main_text (doc : HtmlInput) : List Char :=
  let parts := doc.preTexts.filter (fun t => 100 < t.length)
  if !doc.preTexts.isEmpty && !parts.isEmpty then
    List.intercalate ['\n', '\n'] parts
  else
    match doc.oscnContentText with
    | some t => t
    | none => doc.allText

/-- The `(\d+)\s+O\.S\.\s*§\s*[\d\-\.]+[a-z]*` — the whole match (group 0). -/
def matchCiteOS (l : List Char) : Option String := do
  let (_, r1) ← clsPlus isDigitC l
  let r2 ← wsPlus r1
  let r3 ← dropLit "O.S.".toList r2
  let r4 := wsStar r3
  let r5 ← dropLit "§".toList r4
  let r6 := wsStar r5
  let (_, r7) ← clsPlus isSectC r6
  let s := r7.span isLowerC
  pure (String.mk (spanOf l s.2))

/-- The `Okla\.\s*Const\.\s*[Aa]rt\.\s*[IVXLCDM]+,\s*§\s*\d+` — group 0. -/
def matchCiteOklaConst (l : List Char) : Option String := do
  let r1 ← dropLit "Okla.".toList l
  let r2 := wsStar r1
  let r3 ← dropLit "Const.".toList r2
  let r4 := wsStar r3
  let r5 ←
    match dropLit "Art.".toList r4 with
    | some r => some r
    | none => dropLit "art.".toList r4
  let r6 := wsStar r5
  let (_, r7) ← clsPlus isRomanC r6
  let r8 ← dropLit ",".toList r7
  let r9 := wsStar r8
  let r10 ← dropLit "§".toList r9
  let r11 := wsStar r10
  let (_, r12) ← clsPlus isDigitC r11
  pure (String.mk (spanOf l r12))

/-- The `Article\s+[IVXLCDM]+,\s*Section\s+\d+` — group 0. -/
def matchCiteArticleSection (l : List Char) : Option String := do
  let r1 ← dropLit "Article".toList l
  let r2 ← wsPlus r1
  let (_, r3) ← clsPlus isRomanC r2
  let r4 ← dropLit ",".toList r3
  let r5 := wsStar r4
  let r6 ← dropLit "Section".toList r5
  let r7 ← wsPlus r6
  let (_, r8) ← clsPlus isDigitC r7
  pure (String.mk (spanOf l r8))

/-- The `_extract_citation_format`: the three citation patterns tried in
order over `main_text[:2000]`; the first match wins. -/
def extract_citation_format (mainText : List Char) : Option String :=
  let window := mainText.take 2000
  ((reSearch matchCiteOS window).orElse fun _ =>
    reSearch matchCiteOklaConst window).orElse fun _ =>
      reSearch matchCiteArticleSection window

/-- The dict returned by `parse_html_file`, with the statute and
constitution metadata key sets merged (keys a branch does not produce
are `none`). -/
structure ParsedDoc where
  cite_id : String
  url : String
  document_type : String
  page_title : String
  citation_format : Option String
  main_text : List Char
  title_number : Option String
  title_name : Option String
  chapter_number : Option String
  chapter_name : Option String
  article_number : Option String
  article_name : Option String
  section_number : Option String
  section_name : Option String
  scraped_at : String
  scraper_version : String
deriving DecidableEq

/-- The `OklahomaDocumentParser.parse_html_file`: `now` is the
`datetime.now().isoformat()` reading taken while building the result. -/
def parse_html_file (doc : HtmlInput) (now : String) : ParsedDoc :=
  let citeId := String.mk (replaceAll "CiteID_".toList [] doc.stem.toList)
  let documentType := extract_document_type doc.content
  let pageTitle := extract_page_title doc.titleText
  let mainText := extract_main_text doc
  let citationFormat := extract_citation_format mainText
  if documentType = "constitution" then
    let m := extract_constitution_metadata mainText pageTitle
    { cite_id := citeId
      url := "https://www.oscn.net/applications/oscn/DeliverDocument.asp?CiteID=" ++ citeId
      document_type := documentType
      page_title := pageTitle
      citation_format := citationFormat
      main_text := mainText
      title_number := none, title_name := none
      chapter_number := none, chapter_name := none
      article_number := m.article_number, article_name := m.article_name
      section_number := m.section_number, section_name := m.section_name
      scraped_at := now
      scraper_version := "2.0" }
  else
    let m := extract_statute_metadata mainText pageTitle
    { cite_id := citeId
      url := "https://www.oscn.net/applications/oscn/DeliverDocument.asp?CiteID=" ++ citeId
      document_type := documentType
      page_title := pageTitle
      citation_format := citationFormat
      main_text := mainText
      title_number := m.title_number, title_name := m.title_name
      chapter_number := m.chapter_number, chapter_name := m.chapter_name
      article_number := none, article_name := none
      section_number := m.section_number, section_name := m.section_name
      scraped_at := now
      scraper_version := "2.0" }

/-! ## HTML processor parse with failure policy (C2)

`StatuteHTMLProcessor.parse_statute_html` in `src/html_processor.py`. -/

/-- The BeautifulSoup view of one downloaded statute HTML file. -/
structure StatutePage where
  titleText : Option (List Char)
  h1Text : Option (List Char)
  mainContentText : Option (List Char)
  paragraphTexts : List (List Char)
deriving DecidableEq

/-- The sidecar `.meta.json` contents (absent file gives all-default). -/
structure StatuteMetaFile where
  cite_id : Option String
  url : Option String
  downloaded_at : Option String
  title_number : Option Nat
deriving DecidableEq

/-- The record `parse_statute_html` returns on success. -/
structure StatuteRecord where
  cite_id : String
  title_number : Nat
  section_number : String
  section_name : String
  text : List Char
  url : String
  downloaded_at : String
  processed_at : String
deriving DecidableEq

/-- The `re.sub(r'\n{3,}', '\n\n', ...)` cleanup: cap every newline run
at two. -/
def collapseNlGo : List Char → Nat → List Char
  | [], _ => []
  | c :: t, run =>
    if c = '\n' then
      if run < 2 then '\n' :: collapseNlGo t (run + 1)
      else collapseNlGo t (run + 1)
    else c :: collapseNlGo t 0

/-- The whitespace cleanup applied to the extracted text. -/
def cleanContent (l : List Char) : List Char := trimWs (collapseNlGo l 0)

/-- The `Section\s+(\d+[A-Za-z]?[\-\d\.]*)` with IGNORECASE — capture 1. -/
def matchSectionName (l : List Char) : Option String := do
  let r1 ← dropLitCI "Section".toList l
  let r2 ← wsPlus r1
  let (ds, r3) ← clsPlus isDigitC r2
  match r3 with
  | c :: r4 =>
    if isAlphaC c then
      let s := r4.span isSectC
      pure (String.mk (ds ++ c :: s.1))
    else
      let s := r3.span isSectC
      pure (String.mk (ds ++ s.1))
  | [] => pure (String.mk ds)

/-- The `title_(\d+)` searched over the file path. -/
def matchTitleDir (l : List Char) : Option Nat := do
  let r1 ← dropLit "title_".toList l
  let (ds, _) ← clsPlus isDigitC r1
  pure (digitsToNat ds)

/-- The text-extraction step of `parse_statute_html`: the `div.main` /
`div#content` text if such a div exists, else all `<p>` texts joined by
blank lines; then newline-run collapsing and strip. -/
def statuteTextContent (page : StatutePage) : List Char :=
  let raw :=
    match page.mainContentText with
    | some t => t
    | none => List.intercalate ['\n', '\n'] page.paragraphTexts
  cleanContent raw

/-- The section-name selection of `parse_statute_html`: the `<h1>` text
when present, else the `<title>` text, else `"Untitled Section"`. -/
def statuteSectionName (page : StatutePage) : List Char :=
  match page.h1Text with
  | some t => t
  | none =>
    match page.titleText with
    | some t => t
    | none => "Untitled Section".toList

/-- The `StatuteHTMLProcessor.parse_statute_html`: returns None when the
cleaned content is empty or under 50 characters, otherwise a record whose
unmatched fields are left empty/zero; `now` is the
`datetime.now().isoformat()` reading. -/
def parse_statute_html (page : StatutePage) (meta : StatuteMetaFile)
    (pathStem pathStr : String) (now : String) : Option StatuteRecord :=
  let sectionName := statuteSectionName page
  let textContent := statuteTextContent page
  if textContent.length < 50 then none
  else
    let sectionNumber := (reSearch matchSectionName sectionName).getD ""
    let titleNumber0 := meta.title_number.getD 0
    let titleNumber :=
      if titleNumber0 = 0 then (reSearch matchTitleDir pathStr.toList).getD 0
      else titleNumber0
    some
      { cite_id := meta.cite_id.getD
          (String.mk (replaceAll "cite_".toList [] pathStem.toList))
        title_number := titleNumber
        section_number := sectionNumber
        section_name := String.mk sectionName
        text := textContent
        url := meta.url.getD ""
        downloaded_at := meta.downloaded_at.getD ""
        processed_at := now }

/-! ## Legislative history extraction (C3)

`parse_legislative_history` in `src/oklahoma_legal/improved_parser.py`. -/

/-- Lazy `(.+?)` followed by a condition on the remainder: consume at
least one character and stop at the first position where `stop` accepts
the rest. -/
def lazyUntilGo (stop : List Char → Bool) :
    List Char → List Char → Option (List Char × List Char)
  | acc, [] => if stop [] then some (acc.reverse, []) else none
  | acc, d :: t =>
    if stop (d :: t) then some (acc.reverse, d :: t)
    else lazyUntilGo stop (d :: acc) t

/-- The `(.+?)(?=stop)`: minimal non-empty prefix whose remainder satisfies
`stop`. -/
def lazyUntil (stop : List Char → Bool) : List Char → Option (List Char × List Char)
  | [] => none
  | c :: t => lazyUntilGo stop [c] t

/-- The `$` without MULTILINE: end of string, or just before a final newline. -/
def endDollar (l : List Char) : Bool := l.isEmpty || l = ['\n']

/-- The history-section regex
`(?:Historical Data|History)[:\s]*(.+?)(?:Citationizer|$)` with
DOTALL and IGNORECASE, matched at one position; returns group 1.
The `[:\s]*` run and the lazy group reach the same endpoints, except that
when the text ends inside the `[:\s]*` run the engine backtracks one
class character into the group; that case is handled explicitly. -/
def matchHistSection (l : List Char) : Option (List Char) := do
  let r1 ←
    match dropLitCI "Historical Data".toList l with
    | some r => some r
    | none => dropLitCI "History".toList l
  let s := r1.span (fun c => c = ':' || isWsChar c)
  let stop := fun r => (dropLitCI "Citationizer".toList r).isSome || endDollar r
  match lazyUntilGo stop [] s.2 with
  | some (g, _) =>
    if g.isEmpty then none else pure g
  | none =>
    match s.1.reverse with
    | c :: _ => if s.2.isEmpty then pure [c] else none
    | [] => none

/-- Exactly four decimal digits (`\d{4}`). -/
def digits4 : List Char → Option (List Char × List Char)
  | a :: b :: c :: d :: r =>
    if isDigitC a && isDigitC b && isDigitC c && isDigitC d then
      some ([a, b, c, d], r)
    else none
  | _ => none

/-- The optional greedy history-entry prefix
`(?:Amended by |Renumbered from |Added by |Repealed by )?`. -/
def dropHistEntryLead (l : List Char) : List Char :=
  match dropLit "Amended by ".toList l with
  | some r => r
  | none =>
    match dropLit "Renumbered from ".toList l with
    | some r => r
    | none =>
      match dropLit "Added by ".toList l with
      | some r => r
      | none =>
        match dropLit "Repealed by ".toList l with
        | some r => r
        | none => l

/-- The lookahead `(?=(?:;|Laws|\Z|Amended|Renumbered|Added|Repealed))`
of the history-entry patterns (case-sensitive: the entry patterns are
compiled with DOTALL only). -/
def lawsStop (r : List Char) : Bool :=
  r.isEmpty
    || (match r with | c :: _ => c = ';' | [] => true)
    || (dropLit "Laws".toList r).isSome
    || (dropLit "Amended".toList r).isSome
    || (dropLit "Renumbered".toList r).isSome
    || (dropLit "Added".toList r).isSome
    || (dropLit "Repealed".toList r).isSome

/-- The `,\s+(.+?)(?=stop)`: greedy `\s+` then the lazy group.  A `.` can
also match whitespace (DOTALL), so taking the whitespace run maximally
reaches the same endpoints, except when the text ends inside the run —
then the engine backtracks one whitespace character into the group. -/
def commaWsLazy (stop : List Char → Bool) (l : List Char) :
    Option (List Char × List Char) :=
  match l with
  | ',' :: t =>
    let s := t.span isWsChar
    if s.1.isEmpty then none
    else
      match lazyUntil stop s.2 with
      | some (g, rest) => some (g, rest)
      | none =>
        match s.1.reverse with
        | c :: _ :: _ => if s.2.isEmpty && stop [] then some ([c], []) else none
        | _ => none
  | _ => none

/-- Raw capture groups of the history-entry pattern with bill type
(`Laws\s+(\d{4}),\s+(HB|SB)\s+(\d+),\s+c\.\s+(\d+),\s+§\s+([\d\w]+)`
followed by the optional trailing group and the lookahead). -/
structure LawsMatchWithBill where
  year : List Char
  billType : String
  billNum : List Char
  chapter : List Char
  sectionNum : List Char
  restGroup : Option (List Char)
  whole : List Char
deriving DecidableEq

/-- Raw capture groups of the history-entry pattern without bill type
(`Laws\s+(\d{4}),\s+c\.\s+(\d+),\s+§\s+([\d\w]+)` plus trailing group
and lookahead). -/
structure LawsMatchNoBill where
  year : List Char
  chapter : List Char
  sectionNum : List Char
  restGroup : Option (List Char)
  whole : List Char
deriving DecidableEq

/-- Matcher for the with-bill history-entry pattern at one position;
returns the groups and the rest of the input after the match. -/
def matchLawsWithBill (l : List Char) : Option (LawsMatchWithBill × List Char) :=
  match dropLit "Laws".toList (dropHistEntryLead l) with
  | none => none
  | some r1 =>
  match wsPlus r1 with
  | none => none
  | some r2 =>
  match digits4 r2 with
  | none => none
  | some (yr, r3) =>
  match dropLit ",".toList r3 with
  | none => none
  | some r4 =>
  match wsPlus r4 with
  | none => none
  | some r5 =>
  match
    (match dropLit "HB".toList r5 with
     | some r => some (("HB" : String), r)
     | none =>
       match dropLit "SB".toList r5 with
       | some r => some (("SB" : String), r)
       | none => none) with
  | none => none
  | some (bt, r6) =>
  match wsPlus r6 with
  | none => none
  | some r7 =>
  match clsPlus isDigitC r7 with
  | none => none
  | some (bn, r8) =>
  match dropLit ",".toList r8 with
  | none => none
  | some r9 =>
  match wsPlus r9 with
  | none => none
  | some r10 =>
  match dropLit "c.".toList r10 with
  | none => none
  | some r11 =>
  match wsPlus r11 with
  | none => none
  | some r12 =>
  match clsPlus isDigitC r12 with
  | none => none
  | some (ch, r13) =>
  match dropLit ",".toList r13 with
  | none => none
  | some r14 =>
  match wsPlus r14 with
  | none => none
  | some r15 =>
  match dropLit "§".toList r15 with
  | none => none
  | some r16 =>
  match wsPlus r16 with
  | none => none
  | some r17 =>
  match clsPlus isWordC r17 with
  | none => none
  | some (sec, r18) =>
  match commaWsLazy lawsStop r18 with
  | some (g, rest) =>
    some (⟨yr, bt, bn, ch, sec, some g, spanOf l rest⟩, rest)
  | none =>
    if lawsStop r18 then some (⟨yr, bt, bn, ch, sec, none, spanOf l r18⟩, r18)
    else none

/-- Matcher for the no-bill history-entry pattern at one position. -/
def matchLawsNoBill (l : List Char) : Option (LawsMatchNoBill × List Char) :=
  match dropLit "Laws".toList (dropHistEntryLead l) with
  | none => none
  | some r1 =>
  match wsPlus r1 with
  | none => none
  | some r2 =>
  match digits4 r2 with
  | none => none
  | some (yr, r3) =>
  match dropLit ",".toList r3 with
  | none => none
  | some r4 =>
  match wsPlus r4 with
  | none => none
  | some r5 =>
  match dropLit "c.".toList r5 with
  | none => none
  | some r6 =>
  match wsPlus r6 with
  | none => none
  | some r7 =>
  match clsPlus isDigitC r7 with
  | none => none
  | some (ch, r8) =>
  match dropLit ",".toList r8 with
  | none => none
  | some r9 =>
  match wsPlus r9 with
  | none => none
  | some r10 =>
  match dropLit "§".toList r10 with
  | none => none
  | some r11 =>
  match wsPlus r11 with
  | none => none
  | some r12 =>
  match clsPlus isWordC r12 with
  | none => none
  | some (sec, r13) =>
  match commaWsLazy lawsStop r13 with
  | some (g, rest) =>
    some (⟨yr, ch, sec, some g, spanOf l rest⟩, rest)
  | none =>
    if lawsStop r13 then some (⟨yr, ch, sec, none, spanOf l r13⟩, r13)
    else none

/-- The `re.finditer`: repeatedly take the leftmost match and continue after
it (advancing one character on a match that consumed nothing). -/
def finditerGo {α : Type} (m : List Char → Option (α × List Char)) :
    Nat → List Char → List α
  | 0, _ => []
  | fuel + 1, l =>
    match reSearch m l with
    | none => []
    | some (a, rest) =>
      if rest.length < l.length then a :: finditerGo m fuel rest
      else a :: finditerGo m fuel (rest.drop 1)

/-- The `re.finditer` over a whole string. -/
def finditer {α : Type} (m : List Char → Option (α × List Char))
    (l : List Char) : List α :=
  finditerGo m (l.length + 1) l

/-- The `eff\.\s+([^,;]+)` with IGNORECASE — capture 1. -/
def matchEffDot (l : List Char) : Option (List Char) := do
  let r1 ← dropLitCI "eff.".toList l
  let r2 ← wsPlus r1
  let (cs, _) ← clsPlus (fun c => !(c = ',' || c = ';')) r2
  pure cs

/-- The `emerg\.\s+eff\.\s+([^,;]+)` with IGNORECASE — capture 1. -/
def matchEmergEff (l : List Char) : Option (List Char) := do
  let r1 ← dropLitCI "emerg.".toList l
  let r2 ← wsPlus r1
  let r3 ← dropLitCI "eff.".toList r2
  let r4 ← wsPlus r3
  let (cs, _) ← clsPlus (fun c => !(c = ',' || c = ';')) r4
  pure cs

/-- The `effective\s+([^,;]+)` with IGNORECASE — capture 1. -/
def matchEffective (l : List Char) : Option (List Char) := do
  let r1 ← dropLitCI "effective".toList l
  let r2 ← wsPlus r1
  let (cs, _) ← clsPlus (fun c => !(c = ',' || c = ';')) r2
  pure cs

/-- The effective-date loop: the three `eff_patterns` tried in order;
the first whose search succeeds supplies `group(1).strip()`. -/
def extractEffDate (restGroup : Option (List Char)) : Option String :=
  match restGroup with
  | none => none
  | some r =>
    match reSearch matchEffDot r with
    | some cs => some (String.mk (trimWs cs))
    | none =>
      match reSearch matchEmergEff r with
      | some cs => some (String.mk (trimWs cs))
      | none =>
        match reSearch matchEffective r with
        | some cs => some (String.mk (trimWs cs))
        | none => none

/-- One `legislative_history` entry dict. -/
structure LegEntry where
  year : Nat
  bill_type : String
  bill_number : Option String
  chapter : String
  sectionNum : String
  details : String
  effective_date : Option String
deriving DecidableEq

/-- Entry built from a with-bill match. -/
def entryOfWithBill (m : LawsMatchWithBill) : LegEntry :=
  { year := digitsToNat m.year
    bill_type := m.billType
    bill_number := some (String.mk m.billNum)
    chapter := String.mk m.chapter
    sectionNum := String.mk m.sectionNum
    details := String.mk (trimWs m.whole)
    effective_date := extractEffDate m.restGroup }

/-- Entry built from a no-bill match (`bill_type` is the literal
`'Laws'`, `bill_number` is None). -/
def entryOfNoBill (m : LawsMatchNoBill) : LegEntry :=
  { year := digitsToNat m.year
    bill_type := "Laws"
    bill_number := none
    chapter := String.mk m.chapter
    sectionNum := String.mk m.sectionNum
    details := String.mk (trimWs m.whole)
    effective_date := extractEffDate m.restGroup }

/-- The `parse_legislative_history(text)`: no entries unless a
History/Historical Data section is found; then all with-bill matches
followed by all no-bill matches over the section text. -/
def parse_legislative_history (text : List Char) : List LegEntry :=
  match reSearch matchHistSection text with
  | none => []
  | some historyText =>
    (finditer matchLawsWithBill historyText).map entryOfWithBill
      ++ (finditer matchLawsNoBill historyText).map entryOfNoBill

/-! # Theorems -/

/-! ## Helper lemmas -/

/-- Folding success recordings accumulates exactly the recorded ids. -/
theorem foldl_record_success (l : List String) (S : Finset String) :
    l.foldl record_success S = S ∪ l.toFinset := by
  induction l generalizing S with
  | nil => simp
  | cons a t ih =>
    simp [record_success, List.foldl_cons, ih, Finset.insert_union,
      Finset.union_insert]

/-- The `parse_html_file` copies its clock reading into `scraped_at`. -/
theorem parse_html_file_scraped_at (doc : HtmlInput) (now : String) :
    (parse_html_file doc now).scraped_at = now := by
  by_cases h : extract_document_type doc.content = "constitution" <;>
    simp [parse_html_file, h]

/-! ## C6 — progress persistence round-trips -/

/-- C6 (confirmed): recording a sequence of successful citeIds into the
in-memory progress set, saving it (as any enumeration of the set), and
loading it back yields exactly the set of citeIds recorded as successes. -/
theorem progress_roundtrip (successes enum : List String)
    (h : enum.toFinset = run_records successes) :
    load_progress (save_progress enum) = successes.toFinset := by
  have hr : run_records successes = successes.toFinset := by
    simpa [run_records] using foldl_record_success successes ∅
  simp [load_progress, save_progress, h, hr]

/-- Witness for `progress_roundtrip` at a concrete recording sequence. -/
theorem progress_roundtrip_witness :
    (["1", "2"] : List String).toFinset = run_records ["2", "1", "2"] ∧
    load_progress (save_progress ["1", "2"]) =
      (["2", "1", "2"] : List String).toFinset :=
  ⟨by decide, progress_roundtrip ["2", "1", "2"] ["1", "2"] (by decide)⟩

/-! ## C10 — corrupted progress files reset resume state -/

/-- C10 (confirmed): for an absent, unreadable, or invalid-JSON progress
file both loaders return the empty set instead of raising, so resume
state silently resets to nothing-completed. -/
theorem progress_loaders_empty_on_corrupt (fs : ProgressFile)
    (h : fs = .absent ∨ fs = .unreadable ∨ fs = .invalidJson) :
    load_progress fs = ∅ ∧ load_processed fs = ∅ := by
  rcases h with h | h | h <;> subst h <;> exact ⟨rfl, rfl⟩

/-- Witness for `progress_loaders_empty_on_corrupt` on an invalid-JSON
file. -/
theorem progress_loaders_empty_on_corrupt_witness :
    load_progress .invalidJson = ∅ ∧ load_processed .invalidJson = ∅ :=
  progress_loaders_empty_on_corrupt .invalidJson (Or.inr (Or.inr rfl))

/-! ## C1 — parser purity -/

/-- C1 (corrected, counterexample): two invocations of the parser on the
same input at different clock readings do not yield byte-identical
records — the `scraped_at` field differs. -/
theorem parse_html_file_not_pure_counterexample :
    parse_html_file ⟨[], none, [], none, [], "CiteID_1"⟩ "2024-01-01T00:00:00"
      ≠ parse_html_file ⟨[], none, [], none, [], "CiteID_1"⟩ "2024-01-01T00:00:01" := by
  decide

/-- C1 (amended): the parser is a deterministic function of its input
together with the clock reading; two invocations on the same input agree
exactly when the clock readings agree, i.e. every field except
`scraped_at` depends only on the input. -/
theorem parse_html_file_deterministic_iff_same_clock (doc : HtmlInput)
    (t1 t2 : String) :
    parse_html_file doc t1 = parse_html_file doc t2 ↔ t1 = t2 := by
  constructor
  · intro h
    have h2 := congrArg ParsedDoc.scraped_at h
    rwa [parse_html_file_scraped_at, parse_html_file_scraped_at] at h2
  · intro h
    rw [h]

/-! ## C5 — fetcher retry bound and backoff -/

/-- C5 (corrected, counterexample): with a transport that always times
out, the fetch makes exactly 3 attempts and returns a failure value, but
the inter-attempt delays are not each at least double the previous: both
draws can be 7 seconds. -/
theorem retry_no_doubling_counterexample :
    (get_constitution_with_retry (fun _ => .timeout) (fun _ => (7 : ℚ))
        (fun s => s) 3).attempts = 3 ∧
    (get_constitution_with_retry (fun _ => .timeout) (fun _ => (7 : ℚ))
        (fun s => s) 3).result = none ∧
    ¬ List.Chain' (fun a b : ℚ => 2 * a ≤ b)
      (get_constitution_with_retry (fun _ => .timeout) (fun _ => (7 : ℚ))
        (fun s => s) 3).delays := by
  refine ⟨rfl, rfl, ?_⟩
  have hd : (get_constitution_with_retry (fun _ => .timeout) (fun _ => (7 : ℚ))
      (fun s => s) 3).delays = [7, 7] := rfl
  rw [hd]
  intro hch
  rw [List.chain'_cons] at hch
  norm_num at hch

/-- C5 (amended): with 3 retries and an always-failing transport,
exactly 3 attempts are made before returning a failure value; the two
inter-attempt delays are the `uniform(5, 10)` draws of `human_delay`, so
each lies in [5, 10] seconds independently of the previous one (no
exponential doubling). -/
theorem retry_exhausts_and_uniform_delays (rands : Nat → ℚ)
    (parse : String → String) (hr : ∀ n, 5 ≤ rands n ∧ rands n ≤ 10) :
    (get_constitution_with_retry (fun _ => .timeout) rands parse 3).result = none ∧
    (get_constitution_with_retry (fun _ => .timeout) rands parse 3).attempts = 3 ∧
    (get_constitution_with_retry (fun _ => .timeout) rands parse 3).delays
      = [rands 0, rands 1] ∧
    ∀ d ∈ (get_constitution_with_retry (fun _ => .timeout) rands parse 3).delays,
      5 ≤ d ∧ d ≤ 10 := by
  refine ⟨rfl, rfl, rfl, ?_⟩
  have hd : (get_constitution_with_retry (fun _ => .timeout) rands parse 3).delays
      = [rands 0, rands 1] := rfl
  rw [hd]
  intro d hdm
  rcases List.mem_cons.mp hdm with h | h
  · exact h ▸ hr 0
  · rcases List.mem_singleton.mp h with h
    exact h ▸ hr 1

/-- Witness for `retry_exhausts_and_uniform_delays` with constant draws
of 6 seconds. -/
theorem retry_exhausts_and_uniform_delays_witness :
    (∀ n : Nat, 5 ≤ (fun _ : Nat => (6 : ℚ)) n ∧ (fun _ : Nat => (6 : ℚ)) n ≤ 10) ∧
    (get_constitution_with_retry (fun _ => .timeout) (fun _ : Nat => (6 : ℚ))
      (fun s => s) 3).attempts = 3 :=
  ⟨fun _ => by norm_num,
    (retry_exhausts_and_uniform_delays (fun _ : Nat => (6 : ℚ)) (fun s => s)
      (fun _ => by norm_num)).2.1⟩

/-! ## C8 — discovery de-duplication -/

/-- C8 (corrected, counterexample): when the same citeId is referenced
by two document links on one index page, the statute URL collector's
result contains it twice, not once. -/
theorem extract_statute_links_duplicate_counterexample :
    ((extract_statute_links
        [("/applications/oscn/DeliverDocument.asp?CiteID=12345", "Nav Link"),
         ("https://www.oscn.net/applications/oscn/DeliverDocument.asp?CiteID=12345",
          "Body Link")] 21).map StatuteLink.cite_id) = ["12345", "12345"] ∧
    ((extract_statute_links
        [("/applications/oscn/DeliverDocument.asp?CiteID=12345", "Nav Link"),
         ("https://www.oscn.net/applications/oscn/DeliverDocument.asp?CiteID=12345",
          "Body Link")] 21).map StatuteLink.cite_id).count "12345" ≠ 1 := by
  decide

/-- Adding to a set keeps its element list duplicate-free. -/
theorem setAdd_nodup {acc : List String} {x : String} (h : acc.Nodup) :
    (setAdd acc x).Nodup := by
  unfold setAdd
  split <;> simp_all [List.nodup_cons]

/-- The fold building the `cite_ids` set preserves freedom from
duplicates. -/
theorem extract_cite_ids_foldl_nodup (hrefs : List String) :
    ∀ acc : List String, acc.Nodup →
      (hrefs.foldl
        (fun acc href =>
          match reSearch matchDeliverDocCiteId href.toList with
          | some citeId => setAdd acc citeId
          | none => acc) acc).Nodup := by
  induction hrefs with
  | nil => exact fun acc h => h
  | cons hh t ih =>
    intro acc h
    simp only [List.foldl_cons]
    cases hr : reSearch matchDeliverDocCiteId hh.toList with
    | some c => simpa [hr] using ih _ (setAdd_nodup h)
    | none => simpa [hr] using ih _ h

/-- C8 (amended): the case-law discoverer's `extract_cite_ids` result
contains every discovered citeId exactly once (it accumulates into a
set); the statute URL collector keeps one entry per matching link, so a
citeId linked twice appears twice there. -/
theorem extract_cite_ids_dedup (hrefs : List String) (citeId : String)
    (h : citeId ∈ extract_cite_ids hrefs) :
    (extract_cite_ids hrefs).count citeId = 1 := by
  have hnd : (extract_cite_ids hrefs).Nodup :=
    extract_cite_ids_foldl_nodup hrefs [] List.nodup_nil
  exact List.count_eq_one_of_mem hnd h

/-- Witness for `extract_cite_ids_dedup`: a page referencing the same
citeId from two links yields it exactly once. -/
theorem extract_cite_ids_dedup_witness :
    "12345" ∈ extract_cite_ids
      ["/applications/oscn/DeliverDocument.asp?CiteID=12345",
       "https://www.oscn.net/applications/oscn/deliverdocument.asp?CiteID=12345"] ∧
    (extract_cite_ids
      ["/applications/oscn/DeliverDocument.asp?CiteID=12345",
       "https://www.oscn.net/applications/oscn/deliverdocument.asp?CiteID=12345"]).count
        "12345" = 1 :=
  ⟨by decide, extract_cite_ids_dedup _ _ (by decide)⟩

/-! ## C9 — no rollback of the main record -/

/-- The citations/superseded tail of `insert_statute` never touches the
`statutes` table. -/
theorem insertAfterCitations_statutes (oracle : InsertStep → Bool)
    (d : StatuteData) (st : DbState) :
    (insert_statute.insertAfterCitations oracle d st).2.statutes = st.statutes := by
  unfold insert_statute.insertAfterCitations childInsert
  rcases d.supersededDocs with _ | ss <;> rcases h : oracle .supersededDocuments <;> simp [h]

/-- The history tail of `insert_statute` never touches the `statutes`
table. -/
theorem insertAfterHistory_statutes (oracle : InsertStep → Bool)
    (d : StatuteData) (st : DbState) :
    (insert_statute.insertAfterHistory oracle d st).2.statutes = st.statutes := by
  unfold insert_statute.insertAfterHistory childInsert
  rcases d.citationRefs with _ | cs <;> rcases h : oracle .citations <;>
    simp [h, insertAfterCitations_statutes]

/-- The definitions tail of `insert_statute` never touches the
`statutes` table. -/
theorem insertAfterDefinitions_statutes (oracle : InsertStep → Bool)
    (d : StatuteData) (st : DbState) :
    (insert_statute.insertAfterDefinitions oracle d st).2.statutes = st.statutes := by
  unfold insert_statute.insertAfterDefinitions childInsert
  rcases d.historicalData with _ | hs <;> rcases h : oracle .legislativeHistory <;>
    simp [h, insertAfterHistory_statutes]

/-- The paragraphs tail of `insert_statute` never touches the `statutes`
table. -/
theorem insertAfterParagraphs_statutes (oracle : InsertStep → Bool)
    (d : StatuteData) (st : DbState) :
    (insert_statute.insertAfterParagraphs oracle d st).2.statutes = st.statutes := by
  unfold insert_statute.insertAfterParagraphs childInsert
  rcases d.definitions with _ | ds <;> rcases h : oracle .definitions <;>
    simp [h, insertAfterDefinitions_statutes, insertAfterHistory_statutes]

/-- Success flag of the citations/superseded tail. -/
theorem insertAfterCitations_success (oracle : InsertStep → Bool)
    (d : StatuteData) (st : DbState) :
    (insert_statute.insertAfterCitations oracle d st).1.success =
      (d.supersededDocs.isNone || oracle .supersededDocuments) := by
  unfold insert_statute.insertAfterCitations childInsert
  rcases d.supersededDocs with _ | ss <;> rcases h : oracle .supersededDocuments <;> simp [h]

/-- Success flag of the history tail. -/
theorem insertAfterHistory_success (oracle : InsertStep → Bool)
    (d : StatuteData) (st : DbState) :
    (insert_statute.insertAfterHistory oracle d st).1.success =
      ((d.citationRefs.isNone || oracle .citations)
        && (d.supersededDocs.isNone || oracle .supersededDocuments)) := by
  unfold insert_statute.insertAfterHistory childInsert
  rcases d.citationRefs with _ | cs <;> rcases h : oracle .citations <;>
    simp [h, insertAfterCitations_success]

/-- Success flag of the definitions tail. -/
theorem insertAfterDefinitions_success (oracle : InsertStep → Bool)
    (d : StatuteData) (st : DbState) :
    (insert_statute.insertAfterDefinitions oracle d st).1.success =
      ((d.historicalData.isNone || oracle .legislativeHistory)
        && (d.citationRefs.isNone || oracle .citations)
        && (d.supersededDocs.isNone || oracle .supersededDocuments)) := by
  unfold insert_statute.insertAfterDefinitions childInsert
  rcases d.historicalData with _ | hs <;> rcases h : oracle .legislativeHistory <;>
    simp [h, insertAfterHistory_success, Bool.and_assoc]

/-- Success flag of the paragraphs tail. -/
theorem insertAfterParagraphs_success (oracle : InsertStep → Bool)
    (d : StatuteData) (st : DbState) :
    (insert_statute.insertAfterParagraphs oracle d st).1.success =
      ((d.definitions.isNone || oracle .definitions)
        && (d.historicalData.isNone || oracle .legislativeHistory)
        && (d.citationRefs.isNone || oracle .citations)
        && (d.supersededDocs.isNone || oracle .supersededDocuments)) := by
  unfold insert_statute.insertAfterParagraphs childInsert
  rcases d.definitions with _ | ds <;> rcases h : oracle .definitions <;>
    simp [h, insertAfterDefinitions_success, Bool.and_assoc]

/-- The `insert_statute` reports success exactly when the main insert and
every executed child insert succeed. -/
theorem insert_statute_success (oracle : InsertStep → Bool)
    (d : StatuteData) (st : DbState) :
    (insert_statute oracle d st).1.success =
      (oracle .mainStatute && children_ok oracle d) := by
  unfold insert_statute children_ok childInsert
  rcases hm : oracle .mainStatute <;>
    rcases d.paragraphs with _ | ps <;>
      rcases h : oracle .paragraphs <;>
        simp [hm, h, insertAfterParagraphs_success, Bool.and_assoc]

/-- Once the main insert has succeeded, the main record stays in the
`statutes` table whatever happens to the child inserts. -/
theorem insert_statute_statutes (oracle : InsertStep → Bool)
    (d : StatuteData) (st : DbState) (hmain : oracle .mainStatute = true) :
    (insert_statute oracle d st).2.statutes = st.statutes ++ [d.citeId] := by
  unfold insert_statute childInsert
  rcases d.paragraphs with _ | ps <;>
    rcases h : oracle .paragraphs <;>
      simp [hmain, h, insertAfterParagraphs_statutes]

/-- C9 (confirmed): when the main statutes-table insert succeeds and a
subsequent child-table insert fails, `insert_statute` returns a failure
result but the already-inserted main record remains in the store — no
rollback or compensating delete is performed. -/
theorem insert_statute_no_rollback (oracle : InsertStep → Bool)
    (d : StatuteData) (st : DbState)
    (hmain : oracle .mainStatute = true)
    (hchild : children_ok oracle d = false) :
    (insert_statute oracle d st).1.success = false ∧
    d.citeId ∈ (insert_statute oracle d st).2.statutes := by
  constructor
  · rw [insert_statute_success, hmain, hchild]
    rfl
  · rw [insert_statute_statutes oracle d st hmain]
    simp

/-- Witness for `insert_statute_no_rollback`: the paragraphs insert
fails after a successful main insert. -/
theorem insert_statute_no_rollback_witness :
    ((insert_statute
        (fun s => match s with | InsertStep.paragraphs => false | _ => true)
        ⟨"77", some ["p1"], none, none, none, none⟩
        ⟨[], [], [], [], [], []⟩).1.success = false) ∧
    "77" ∈ (insert_statute
        (fun s => match s with | InsertStep.paragraphs => false | _ => true)
        ⟨"77", some ["p1"], none, none, none, none⟩
        ⟨[], [], [], [], [], []⟩).2.statutes :=
  insert_statute_no_rollback
    (fun s => match s with | InsertStep.paragraphs => false | _ => true)
    ⟨"77", some ["p1"], none, none, none, none⟩
    ⟨[], [], [], [], [], []⟩ (by decide) (by decide)

/-! ## C7 — chunking correctness -/

/-- C7 (corrected, counterexample): a single word longer than the budget
is emitted as one oversized chunk (7 > 5), and greedy word packing does
not yield exactly `ceil(L / B)` chunks (3 chunks where `ceil(14/9) = 2`). -/
theorem chunk_text_counterexample :
    chunk_text "aaaaaaa".toList 5 = ["aaaaaaa".toList] ∧
    (∃ c ∈ chunk_text "aaaaaaa".toList 5, 5 < c.length) ∧
    (chunk_text "aaaa aaaa aaaa".toList 9).length = 3 ∧
    (14 + 9 - 1) / 9 = 2 := by
  decide

/-- The `joinWords` on a cons with a non-empty tail. -/
theorem joinWords_cons_of_ne_nil (w : List Char) {ws : List (List Char)}
    (h : ws ≠ []) : joinWords (w :: ws) = w ++ ' ' :: joinWords ws := by
  cases ws with
  | nil => exact absurd rfl h
  | cons x t => rfl

/-- Length of a space-join in terms of the running `len(word) + 1` sum. -/
theorem joinWords_length (ws : List (List Char)) (h : ws ≠ []) :
    (joinWords ws).length + 1 = (ws.map (fun w => w.length + 1)).sum := by
  induction ws with
  | nil => exact absurd rfl h
  | cons w t ih =>
    cases t with
    | nil => simp [joinWords]
    | cons x t' =>
      rw [joinWords_cons_of_ne_nil w (by simp)]
      have := ih (by simp)
      simp only [List.map_cons, List.sum_cons] at this ⊢
      simp only [List.length_append, List.length_cons]
      omega

/-- Joining concatenated word lists inserts a single space between the
two joins. -/
theorem joinWords_append (a b : List (List Char)) (ha : a ≠ []) (hb : b ≠ []) :
    joinWords (a ++ b) = joinWords a ++ ' ' :: joinWords b := by
  induction a with
  | nil => exact absurd rfl ha
  | cons w t ih =>
    cases t with
    | nil =>
      simp only [List.singleton_append]
      rw [joinWords_cons_of_ne_nil w hb, joinWords]
    | cons x t' =>
      have hta : x :: t' ≠ [] := by simp
      rw [List.cons_append, joinWords_cons_of_ne_nil w (by simp),
        joinWords_cons_of_ne_nil w hta, ih hta, List.append_assoc, List.cons_append]

/-- The packing loop never returns an empty chunk list while a chunk is
open. -/
theorem packGo_ne_nil (maxLength : Nat) (ws : List (List Char)) :
    ∀ cur curLen, cur ≠ [] → packGo maxLength ws cur curLen ≠ [] := by
  induction ws with
  | nil =>
    intro cur curLen h
    simp [packGo, h]
  | cons w t ih =>
    intro cur curLen h
    rw [packGo]
    split
    · split
      · exact ih [w] (w.length + 1) (by simp)
      · simp
    · exact ih (cur ++ [w]) (curLen + (w.length + 1)) (by simp)

/-- Joining the packed chunks with single spaces reproduces the join of
the open chunk and the remaining words. -/
theorem packGo_joinWords (maxLength : Nat) (ws : List (List Char)) :
    ∀ cur curLen, cur ≠ [] →
      joinWords (packGo maxLength ws cur curLen) = joinWords (cur ++ ws) := by
  induction ws with
  | nil =>
    intro cur curLen h
    simp [packGo, h, joinWords]
  | cons w t ih =>
    intro cur curLen h
    rw [packGo]
    split
    · split
      · simp_all
      · rw [joinWords_cons_of_ne_nil _ (packGo_ne_nil maxLength t [w] (w.length + 1) (by simp)),
          ih [w] (w.length + 1) (by simp), ← joinWords_append cur ([w] ++ t) h (by simp),
          List.singleton_append]
    · rw [ih (cur ++ [w]) (curLen + (w.length + 1)) (by simp), List.append_assoc,
        List.singleton_append]

/-- Every chunk the packing loop emits respects the budget, provided
every word fits and the open chunk does. -/
theorem packGo_length_le (maxLength : Nat) (ws : List (List Char)) :
    ∀ cur curLen,
      curLen = (cur.map (fun w => w.length + 1)).sum →
      (cur ≠ [] → curLen ≤ maxLength) →
      (∀ w ∈ ws, w.length + 1 ≤ maxLength) →
      ∀ c ∈ packGo maxLength ws cur curLen, c.length ≤ maxLength := by
  induction ws with
  | nil =>
    intro cur curLen hinv hcur _ c hc
    by_cases h : cur = []
    · simp [packGo, h] at hc
    · simp only [packGo, List.isEmpty_eq_true, h, if_false, List.mem_singleton] at hc
      subst hc
      have := joinWords_length cur h
      have := hcur h
      omega
  | cons w t ih =>
    intro cur curLen hinv hcur hws c hc
    rw [packGo] at hc
    split at hc
    · rename_i hover
      split at hc
      · rename_i hemp
        exact ih [w] (w.length + 1) (by simp)
          (fun _ => hws w (by simp)) (fun x hx => hws x (by simp [hx])) c hc
      · rename_i hemp
        have hcne : cur ≠ [] := by simpa using hemp
        rcases List.mem_cons.mp hc with h | h
        · subst h
          have := joinWords_length cur hcne
          have := hcur hcne
          omega
        · exact ih [w] (w.length + 1) (by simp)
            (fun _ => hws w (by simp)) (fun x hx => hws x (by simp [hx])) c h
    · rename_i hfit
      push_neg at hfit
      exact ih (cur ++ [w]) (curLen + (w.length + 1))
        (by simp [hinv]) (fun _ => hfit)
        (fun x hx => hws x (by simp [hx])) c hc

/-- Splitting walks straight through a whitespace-free block. -/
theorem wsSplitGo_append_word (w : List Char)
    (hw : ∀ c ∈ w, isWsChar c = false) :
    ∀ l cur, wsSplitGo (w ++ l) cur = wsSplitGo l (w.reverse ++ cur) := by
  induction w with
  | nil => simp
  | cons c t ih =>
    intro l cur
    have hc : isWsChar c = false := hw c (by simp)
    simp only [List.cons_append, wsSplitGo, hc, Bool.false_eq_true, if_false,
      List.reverse_cons, List.append_assoc, List.singleton_append]
    exact ih (fun x hx => hw x (by simp [hx])) l (c :: cur)

/-- Every word `split()` produces is non-empty and whitespace-free. -/
theorem wsSplitGo_sound :
    ∀ l cur, (∀ c ∈ cur, isWsChar c = false) →
      ∀ w ∈ wsSplitGo l cur, w ≠ [] ∧ ∀ c ∈ w, isWsChar c = false := by
  intro l
  induction l with
  | nil =>
    intro cur hcur w hw
    by_cases h : cur = []
    · simp [wsSplitGo, h] at hw
    · simp only [wsSplitGo, List.isEmpty_eq_true, h, if_false,
        List.mem_singleton] at hw
      subst hw
      exact ⟨by simpa using h, fun c hc => hcur c (List.mem_reverse.mp hc)⟩
  | cons c t ih =>
    intro cur hcur w hw
    rw [wsSplitGo] at hw
    by_cases hc : isWsChar c
    · rw [if_pos hc] at hw
      by_cases h : cur = []
      · rw [if_pos (by simp [h])] at hw
        exact ih [] (by simp) w hw
      · rw [if_neg (by simpa using h)] at hw
        rcases List.mem_cons.mp hw with h2 | h2
        · subst h2
          exact ⟨by simpa using h, fun x hx => hcur x (List.mem_reverse.mp hx)⟩
        · exact ih [] (by simp) w h2
    · rw [if_neg hc] at hw
      refine ih (c :: cur) ?_ w hw
      intro x hx
      rcases List.mem_cons.mp hx with h2 | h2
      · subst h2; simpa using hc
      · exact hcur x h2

/-- Splitting a single-space join of non-empty whitespace-free words
recovers exactly those words. -/
theorem wsSplit_joinWords (ws : List (List Char))
    (h : ∀ w ∈ ws, w ≠ [] ∧ ∀ c ∈ w, isWsChar c = false) :
    wsSplit (joinWords ws) = ws := by
  induction ws with
  | nil => rfl
  | cons w t ih =>
    have hw := h w (by simp)
    cases t with
    | nil =>
      show wsSplitGo (joinWords [w]) [] = [w]
      have ha := wsSplitGo_append_word w hw.2 [] []
      rw [List.append_nil] at ha
      rw [joinWords, ha, wsSplitGo]
      rw [if_neg (by simpa using hw.1)]
      simp
    | cons x t' =>
      show wsSplitGo (joinWords (w :: x :: t')) [] = w :: x :: t'
      rw [joinWords_cons_of_ne_nil w (by simp),
        wsSplitGo_append_word w hw.2 (' ' :: joinWords (x :: t')) []]
      rw [wsSplitGo, if_pos (by simp [isWsChar])]
      rw [if_neg (by simpa using hw.1)]
      rw [List.append_nil, List.reverse_reverse]
      have := ih (fun v hv => h v (by simp [hv]))
      exact congrArg (w :: ·) this

/-- Whitespace normalisation is stable under re-splitting. -/
theorem wsSplit_normWs (t : List Char) : wsSplit (normWs t) = wsSplit t := by
  unfold normWs
  exact wsSplit_joinWords (wsSplit t) (fun w hw => wsSplitGo_sound t [] (by simp) w hw)

/-- C7 (amended): provided every whitespace-separated word fits in the
budget (`len(word) + 1 ≤ B`), every chunk `chunk_text` produces is at
most B characters long, and the chunks joined with single spaces
reconstruct the original text up to whitespace normalisation; a single
word longer than B is emitted as its own oversized chunk, and the chunk
count is not exactly `ceil(L / B)`. -/
theorem chunk_text_bound_and_reconstruction (text : List Char) (maxLength : Nat)
    (hw : ∀ w ∈ wsSplit text, w.length + 1 ≤ maxLength) :
    (∀ c ∈ chunk_text text maxLength, c.length ≤ maxLength) ∧
    normWs (joinWords (chunk_text text maxLength)) = normWs text := by
  unfold chunk_text
  by_cases h : text.length ≤ maxLength
  · rw [if_pos h]
    constructor
    · intro c hc
      rw [List.mem_singleton] at hc
      subst hc
      exact h
    · rfl
  · rw [if_neg h]
    constructor
    · intro c hc
      exact packGo_length_le maxLength (wsSplit text) [] 0 (by simp)
        (fun hne => absurd rfl hne) hw c hc
    · have h0 : joinWords (packGo maxLength (wsSplit text) [] 0)
          = joinWords (wsSplit text) := by
        cases hws : wsSplit text with
        | nil => simp [packGo]
        | cons w t =>
          rw [packGo]
          split
          · rw [if_pos (by simp)]
            rw [packGo_joinWords maxLength t [w] (w.length + 1) (by simp),
              List.singleton_append]
          · have : ([] : List (List Char)) ++ [w] = [w] := rfl
            rw [this]
            rw [packGo_joinWords maxLength t [w] (0 + (w.length + 1)) (by simp),
              List.singleton_append]
      rw [h0]
      show normWs (normWs text) = normWs text
      unfold normWs
      rw [wsSplit_joinWords (wsSplit text)
        (fun w hw => wsSplitGo_sound text [] (by simp) w hw)]

/-- Witness for `chunk_text_bound_and_reconstruction` on a three-word
text with budget 9. -/
theorem chunk_text_bound_and_reconstruction_witness :
    (∀ w ∈ wsSplit "aaaa aaaa aaaa".toList, w.length + 1 ≤ 9) ∧
    normWs (joinWords (chunk_text "aaaa aaaa aaaa".toList 9))
      = normWs "aaaa aaaa aaaa".toList :=
  ⟨by decide,
    (chunk_text_bound_and_reconstruction "aaaa aaaa aaaa".toList 9 (by decide)).2⟩

/-! ## C3 — legislative history extraction -/

/-- C3 (corrected, counterexample): on the bare text
`"Laws 1997, c. 1, § 1, emerg. eff. April 28, 1997"` the extractor
yields no entries at all (it requires a History/Historical Data marker),
and even with the marker present the extracted effective date is
`"April 28"`, not `"April 28, 1997"` — the `[^,;]+` capture stops at the
first comma. -/
theorem parse_legislative_history_counterexample :
    parse_legislative_history
      "Laws 1997, c. 1, § 1, emerg. eff. April 28, 1997".toList = [] ∧
    (parse_legislative_history
      "History: Laws 1997, c. 1, § 1, emerg. eff. April 28, 1997".toList).map
        LegEntry.effective_date = [some "April 28"] := by
  decide

/-- C3 (amended): on text with a History marker followed by
`"Laws 1997, c. 1, § 1, emerg. eff. April 28, 1997"` the extractor
yields exactly one entry with year 1997, billType `"Laws"`, chapter
`"1"`, section `"1"`, and effectiveDate `"April 28"` (truncated at the
comma before the year); without the marker it yields no entries. -/
theorem parse_legislative_history_amended :
    parse_legislative_history
      "History: Laws 1997, c. 1, § 1, emerg. eff. April 28, 1997".toList
      = [{ year := 1997, bill_type := "Laws", bill_number := none,
           chapter := "1", sectionNum := "1",
           details := "Laws 1997, c. 1, § 1, emerg. eff. April 28, 1997",
           effective_date := some "April 28" }] := by
  decide

/-! ## C2 — parser failure policy -/

/-- C2 (confirmed): when no content-extraction strategy yields cleaned
main text of at least 50 characters the parser returns None (the failure
signal) rather than raising or producing a record; for every other input
it succeeds, and a section-name with no section-number match leaves the
field empty. -/
theorem parse_statute_html_failure_policy (page : StatutePage)
    (meta : StatuteMetaFile) (pathStem pathStr now : String) :
    ((statuteTextContent page).length < 50 →
      parse_statute_html page meta pathStem pathStr now = none) ∧
    (50 ≤ (statuteTextContent page).length →
      ∃ r, parse_statute_html page meta pathStem pathStr now = some r ∧
        r.text = statuteTextContent page ∧
        (reSearch matchSectionName (statuteSectionName page) = none →
          r.section_number = "")) := by
  constructor
  · intro h
    simp [parse_statute_html, h]
  · intro h
    have hlt : ¬ (statuteTextContent page).length < 50 := by omega
    simp only [parse_statute_html, if_neg hlt]
    exact ⟨_, rfl, rfl, fun hs => by simp [hs]⟩

/-- Witness for `parse_statute_html_failure_policy`: a page whose only
content is 9 characters long parses to None. -/
theorem parse_statute_html_failure_policy_witness :
    (statuteTextContent ⟨none, none, some "too short".toList, []⟩).length < 50 ∧
    parse_statute_html ⟨none, none, some "too short".toList, []⟩
      ⟨none, none, none, none⟩ "cite_9" "statute_html/title_01/cite_9.html"
      "2024-01-01" = none :=
  ⟨by decide,
    (parse_statute_html_failure_policy ⟨none, none, some "too short".toList, []⟩
      ⟨none, none, none, none⟩ "cite_9" "statute_html/title_01/cite_9.html"
      "2024-01-01").1 (by decide)⟩

/-! ## C4 — citation regex extraction -/

/-- C4 (corrected, counterexample): the extraction regexes take the
first match in the window, not the cited citation: a main text that
contains `"21 O.S. § 1-101"` after an earlier `"Title 47"` and
`"§ 2-202"` gets `title_number = "47"` and `section_number = "2-202"`;
a Constitution text containing `"Article X, Section 1"` after an earlier
`"§ 5"` gets `section_number = "5"`. -/
theorem extract_metadata_first_match_counterexample :
    containsSub "21 O.S. § 1-101".toList
      "Title 47 penalties under § 2-202 also see 21 O.S. § 1-101".toList = true ∧
    (extract_statute_metadata
      "Title 47 penalties under § 2-202 also see 21 O.S. § 1-101".toList
      "").title_number = some "47" ∧
    (extract_statute_metadata
      "Title 47 penalties under § 2-202 also see 21 O.S. § 1-101".toList
      "").section_number = some "2-202" ∧
    containsSub "Article X, Section 1".toList
      "see § 5 and then Article X, Section 1".toList = true ∧
    (extract_constitution_metadata
      "see § 5 and then Article X, Section 1".toList "").article_number
      = some "X" ∧
    (extract_constitution_metadata
      "see § 5 and then Article X, Section 1".toList "").section_number
      = some "5" := by
  decide

/-- A leftmost search fails on a string none of whose characters can
start a match. -/
theorem reSearch_none_of_head {α : Type} (m : List Char → Option α)
    (needC : Char → Bool) (hnil : m [] = none)
    (hhead : ∀ c t, needC c = false → m (c :: t) = none) :
    ∀ l, (∀ c ∈ l, needC c = false) → reSearch m l = none := by
  intro l
  induction l with
  | nil => intro _; simpa [reSearch] using hnil
  | cons c t ih =>
    intro hl
    simp only [reSearch]
    rw [hhead c t (hl c (by simp))]
    exact ih (fun x hx => hl x (by simp [hx]))

/-- A leftmost search skips a prefix none of whose characters can start
a match. -/
theorem reSearch_skip {α : Type} (m : List Char → Option α)
    (needC : Char → Bool)
    (hhead : ∀ c t, needC c = false → m (c :: t) = none)
    (pre : List Char) (hpre : ∀ c ∈ pre, needC c = false) (l : List Char) :
    reSearch m (pre ++ l) = reSearch m l := by
  induction pre with
  | nil => rfl
  | cons c t ih =>
    simp only [List.cons_append, reSearch]
    rw [hhead c _ (hpre c (by simp))]
    exact ih (fun x hx => hpre x (by simp [hx]))

/-- The `Title\s+(\d+)` can only match starting at a `T`. -/
theorem matchTitleNum_head (c : Char) (t : List Char) (h : (c == 'T') = false) :
    matchTitleNum (c :: t) = none := by
  have hne : ¬ (c = 'T') := by simpa using h
  simp [matchTitleNum, show "Title".toList = 'T' :: "itle".toList from rfl,
    dropLit, hne]

/-- The statute section regex can only match starting at a `§`. -/
theorem matchSectSymbStat_head (c : Char) (t : List Char)
    (h : (c == '§') = false) : matchSectSymbStat (c :: t) = none := by
  have hne : ¬ (c = '§') := by simpa using h
  simp [matchSectSymbStat, show "§".toList = ['§'] from rfl, dropLit, hne]

/-- The constitution `§` section regex can only match starting at a `§`. -/
theorem matchSectSymbConst_head (c : Char) (t : List Char)
    (h : (c == '§') = false) : matchSectSymbConst (c :: t) = none := by
  have hne : ¬ (c = '§') := by simpa using h
  simp [matchSectSymbConst, show "§".toList = ['§'] from rfl, dropLit, hne]

/-- The constitution `Section` regex can only match starting at an `S`. -/
theorem matchSectWordConst_head (c : Char) (t : List Char)
    (h : (c == 'S') = false) : matchSectWordConst (c :: t) = none := by
  have hne : ¬ (c = 'S') := by simpa using h
  simp [matchSectWordConst, show "Section".toList = 'S' :: "ection".toList from rfl,
    dropLit, hne]

/-- C4 (amended): the extraction regexes populate the fields from the
first pattern occurrence in the first 1000 characters of the main text.
When the main text begins with `"21 O.S. § 1-101 "` and its remainder
(within the window) contains no `T` (hence no competing `Title N`), the
parser sets `titleNumber = "21"` and `sectionNumber = "1-101"`; when a
Constitution-classified main text begins with `"Article X, Section 1 "`
and its remainder contains no `§`, the parser sets
`articleNumber = "X"` and `sectionNumber = "1"`. -/
theorem extract_metadata_first_match (rest rest2 : List Char)
    (h1 : ∀ c ∈ rest, (c == 'T') = false)
    (h2 : rest.length ≤ 984)
    (h3 : ∀ c ∈ rest2, (c == '§') = false)
    (h4 : rest2.length ≤ 979) :
    (extract_statute_metadata ("21 O.S. § 1-101 ".toList ++ rest)
      "").title_number = some "21" ∧
    (extract_statute_metadata ("21 O.S. § 1-101 ".toList ++ rest)
      "").section_number = some "1-101" ∧
    (extract_constitution_metadata ("Article X, Section 1 ".toList ++ rest2)
      "").article_number = some "X" ∧
    (extract_constitution_metadata ("Article X, Section 1 ".toList ++ rest2)
      "").section_number = some "1" := by
  have htake : ("21 O.S. § 1-101 ".toList ++ rest).take 1000
      = "21 O.S. § 1-101 ".toList ++ rest := by
    rw [List.take_append_eq_append_take,
      List.take_of_length_le (by decide : ("21 O.S. § 1-101 ".toList).length ≤ 1000),
      List.take_of_length_le (by simpa using h2)]
  have htake2 : ("Article X, Section 1 ".toList ++ rest2).take 1000
      = "Article X, Section 1 ".toList ++ rest2 := by
    rw [List.take_append_eq_append_take,
      List.take_of_length_le
        (by decide : ("Article X, Section 1 ".toList).length ≤ 1000),
      List.take_of_length_le (by simpa using h4)]
  have hTitle : reSearch matchTitleNum ("21 O.S. § 1-101 ".toList ++ rest) = none := by
    refine reSearch_none_of_head matchTitleNum (fun c => c == 'T') rfl
      matchTitleNum_head _ ?_
    have hbase : ∀ c ∈ "21 O.S. § 1-101 ".toList, (c == 'T') = false := by decide
    intro c hc
    rcases List.mem_append.mp hc with h | h
    · exact hbase c h
    · exact h1 c h
  have hSect : reSearch matchSectSymbStat ("21 O.S. § 1-101 ".toList ++ rest)
      = some "1-101" := by
    have hsplit : "21 O.S. § 1-101 ".toList ++ rest
        = "21 O.S. ".toList ++ ("§ 1-101 ".toList ++ rest) := by
      rw [← List.append_assoc]
      rfl
    rw [hsplit, reSearch_skip matchSectSymbStat (fun c => c == '§')
      matchSectSymbStat_head "21 O.S. ".toList (by decide)]
    rfl
  have hSectConstNone : reSearch matchSectSymbConst
      ("Article X, Section 1 ".toList ++ rest2) = none := by
    refine reSearch_none_of_head matchSectSymbConst (fun c => c == '§') rfl
      matchSectSymbConst_head _ ?_
    have hbase : ∀ c ∈ "Article X, Section 1 ".toList, (c == '§') = false := by
      decide
    intro c hc
    rcases List.mem_append.mp hc with h | h
    · exact hbase c h
    · exact h3 c h
  have hSectConstWord : reSearch matchSectWordConst
      ("Article X, Section 1 ".toList ++ rest2) = some "1" := by
    have hsplit : "Article X, Section 1 ".toList ++ rest2
        = "Article X, ".toList ++ ("Section 1 ".toList ++ rest2) := by
      rw [← List.append_assoc]
      rfl
    rw [hsplit, reSearch_skip matchSectWordConst (fun c => c == 'S')
      matchSectWordConst_head "Article X, ".toList (by decide)]
    rfl
  refine ⟨?_, ?_, ?_, ?_⟩
  · simp only [extract_statute_metadata, htake, hTitle, Option.orElse_none,
      Option.none_orElse]
    rfl
  · simp only [extract_statute_metadata, htake, hSect]
    rfl
  · simp only [extract_constitution_metadata, htake2]
    rfl
  · simp only [extract_constitution_metadata, htake2, hSectConstNone,
      hSectConstWord]
    rfl

/-- Witness for `extract_metadata_first_match` with empty remainders. -/
theorem extract_metadata_first_match_witness :
    (∀ c ∈ ([] : List Char), (c == 'T') = false) ∧
    (extract_statute_metadata ("21 O.S. § 1-101 ".toList ++ ([] : List Char))
      "").title_number = some "21" :=
  ⟨fun c hc => absurd hc (List.not_mem_nil c),
    (extract_metadata_first_match [] []
      (fun c hc => absurd hc (List.not_mem_nil c)) (by decide)
      (fun c hc => absurd hc (List.not_mem_nil c)) (by decide)).1⟩
